import Mathlib

/-!
Verification development for the kafka_flow_visualiser repository.

The definitions below are shallow embeddings of the JavaScript source:
  * `EventBus` embeds `src/js/core/EventBus.js` (shipped inside
    `src/js/lessons/Lesson5_Offsets.js` as a related document): a map from
    event name to an array of callbacks, arrays modelled as heap cells so
    that `emit` iterates the very array object that `off`/`on` mutate, as
    `Array.prototype.forEach` does in JavaScript.
  * `Animator` embeds the GSAP wrapper class `Animator`.
  * `Scene` embeds the lifecycle base class `Scene`.
  * `OffsetSt` embeds the offset/lag bookkeeping of `Lesson5_Offsets`.
  * `StickySt` embeds the sticky partitioner of `Lesson4_PartitionerStrategies`
    (found in `src/js/lessons/Lesson2_Partitions.js`).
  * `runLoadOps` embeds the in-flight load counters of
    `Lesson4_ConsumerGroups` (`consumerLoad`) and `Lesson2_Partitions`
    (`brokerLoad`).
  * `Consumer.getInfo` embeds the entity info record of `Consumer`.
-/

/-! ## EventBus

Callbacks are identified by numeric ids (standing for JavaScript function
references; `off` removes the first matching reference, modelled as the
first matching id).  A callback's behaviour when invoked is given by an
environment `env : Nat → List Effect`: the bus operations it performs in
order, stopping early if it raises.  `emit` wraps each invocation in
try/catch, so a raising callback never aborts the publish loop. -/

/-- What a callback may do to the bus when invoked: subscribe a callback,
unsubscribe a callback, or raise an exception (which ends the callback's
own execution; `emit` catches it). -/
inductive Effect where
  | eon : String → Nat → Effect
  | eoff : String → Nat → Effect
  | ethrow : Effect
deriving DecidableEq

/-- The EventBus state.  `listeners` is the `Map` from event name to the id
of its callback array; `arrays` is the heap of array objects (an array
emptied and dropped from the map still exists as an object, and an
in-progress `emit` keeps iterating it); `nextArr` is the allocator for
fresh array ids. -/
structure EventBus where
  listeners : List (String × Nat)
  arrays : List (Nat × List Nat)
  nextArr : Nat
deriving DecidableEq

/-- The state produced by the constructor call new EventBus(). -/
def emptyBus : EventBus := ⟨[], [], 0⟩

/-- Read an array object from the heap; a missing id reads as empty. -/
def getArrD (h : List (Nat × List Nat)) (aid : Nat) : List Nat :=
  (h.lookup aid).getD []

/-- In-place update of one array object in the heap. -/
def setArr : List (Nat × List Nat) → Nat → List Nat → List (Nat × List Nat)
  | [], _, _ => []
  | (k, v) :: t, aid, arr => if k = aid then (k, arr) :: t else (k, v) :: setArr t aid arr

/-- Splice at the first indexOf hit: remove the first
occurrence, no-op when absent. -/
def removeFirst : List Nat → Nat → List Nat
  | [], _ => []
  | x :: t, c => if x = c then t else x :: removeFirst t c

/-- Deletion of one key from the listeners map. -/
def removeKey : List (String × Nat) → String → List (String × Nat)
  | [], _ => []
  | (k, v) :: t, e => if k = e then t else (k, v) :: removeKey t e

/-- Embeds EventBus.on(event, callback): push onto the existing array, or create
a fresh entry holding a fresh singleton array. -/
def EventBus.on (b : EventBus) (event : String) (cb : Nat) : EventBus :=
  match b.listeners.lookup event with
  | some aid => { b with arrays := setArr b.arrays aid (getArrD b.arrays aid ++ [cb]) }
  | none =>
      { listeners := b.listeners ++ [(event, b.nextArr)]
        arrays := b.arrays ++ [(b.nextArr, [cb])]
        nextArr := b.nextArr + 1 }

/-- Embeds EventBus.off(event, callback): splice out the first matching
callback, then drop the map entry if the array became empty (the array
object itself survives in the heap, as in JavaScript). -/
def EventBus.off (b : EventBus) (event : String) (cb : Nat) : EventBus :=
  match b.listeners.lookup event with
  | none => b
  | some aid =>
      let arr2 := removeFirst (getArrD b.arrays aid) cb
      { b with
        arrays := setArr b.arrays aid arr2
        listeners := if arr2.isEmpty then removeKey b.listeners event else b.listeners }

/-- Run a callback's effects in order; `true` means it raised (the effects
after the raise do not run, matching an exception aborting the function
body). -/
def runEffects : List Effect → EventBus → EventBus × Bool
  | [], b => (b, false)
  | Effect.ethrow :: _, b => (b, true)
  | Effect.eon e c :: t, b => runEffects t (b.on e c)
  | Effect.eoff e c :: t, b => runEffects t (b.off e c)

/-- The `callbacks.forEach` loop of `EventBus.emit`: `rem` counts the
remaining iterations out of the length captured when the loop started, `k`
is the current index, read from the live array object `aid` at every
iteration (a spliced-out index reads as absent and is skipped, exactly as
`forEach` skips deleted indices).  Returns the bus and the ids invoked, in
order; a raising callback is caught and the loop continues. -/
def emitLoop (env : Nat → List Effect) (aid : Nat) :
    Nat → Nat → EventBus → EventBus × List Nat
  | 0, _, b => (b, [])
  | rem + 1, k, b =>
      match (getArrD b.arrays aid).get? k with
      | none => emitLoop env aid rem (k + 1) b
      | some cb =>
          let b' := (runEffects (env cb) b).1
          let r := emitLoop env aid rem (k + 1) b'
          (r.1, cb :: r.2)

/-- Embeds EventBus.emit(event, data): silently return when the event has no
entry, otherwise run the `forEach` loop over that entry's array object
with the iteration count captured at the start. -/
def EventBus.emit (env : Nat → List Effect) (b : EventBus) (event : String) :
    EventBus × List Nat :=
  match b.listeners.lookup event with
  | none => (b, [])
  | some aid => emitLoop env aid (getArrD b.arrays aid).length 0 b

/-- Embeds EventBus.once(event, callback), which registers a wrapper `w`; the wrapper's
behaviour (call through, then `off` itself) is expressed by the hypothesis
`env w = env c ++ [Effect.eoff event w]` in the theorems below. -/
def EventBus.once (b : EventBus) (event : String) (w : Nat) : EventBus :=
  b.on event w

/-- A bus holding a single event entry with the given callback array. -/
def mkBus (event : String) (arr : List Nat) : EventBus :=
  ⟨[(event, 0)], [(0, arr)], 1⟩

/-! ## Generic list lemmas used by the emit proofs -/

/-- Indexing into an append, left part. -/
theorem get?_append_lt (l₁ l₂ : List Nat) : ∀ j, j < l₁.length → (l₁ ++ l₂).get? j = l₁.get? j := by
  induction l₁ with
  | nil => intro j h; simp at h
  | cons x t ih =>
      intro j h
      cases j with
      | zero => rfl
      | succ n => simpa using ih n (by simpa using h)

/-- Indexing into an append, right part. -/
theorem get?_append_add (l₁ l₂ : List Nat) : ∀ n, (l₁ ++ l₂).get? (l₁.length + n) = l₂.get? n := by
  induction l₁ with
  | nil => intro n; simp
  | cons x t ih => intro n; simpa [Nat.succ_add] using ih n

/-- Indexing an append at exactly the length of the left part. -/
theorem get?_append_length (l₁ : List Nat) (x : Nat) (l₂ : List Nat) :
    (l₁ ++ x :: l₂).get? l₁.length = some x := by
  have := get?_append_add l₁ (x :: l₂) 0
  simpa using this

/-- A successful index read yields a member. -/
theorem mem_of_get? {l : List Nat} : ∀ {n a}, l.get? n = some a → a ∈ l := by
  induction l with
  | nil => intro n a h; simp [List.get?] at h
  | cons x t ih =>
      intro n a h
      cases n with
      | zero => simp [List.get?] at h; simp [h]
      | succ m => exact List.mem_cons_of_mem _ (ih h)

/-- Dropping past a missing index yields the empty list. -/
theorem drop_of_get?_none {l : List Nat} {k : Nat} (h : l.get? k = none) : l.drop k = [] := by
  induction l generalizing k with
  | nil => simp
  | cons x t ih =>
      cases k with
      | zero => simp [List.get?] at h
      | succ m => simpa using ih (by simpa [List.get?] using h)

/-- Dropping up to a present index peels off that element. -/
theorem drop_of_get?_some {l : List Nat} {k c : Nat} (h : l.get? k = some c) :
    l.drop k = c :: l.drop (k + 1) := by
  induction l generalizing k with
  | nil => simp [List.get?] at h
  | cons x t ih =>
      cases k with
      | zero => simp [List.get?] at h; simp [h]
      | succ m => simpa using ih (by simpa [List.get?] using h)

/-- Dropping an append beyond the left part. -/
theorem drop_append_add (l₁ l₂ : List Nat) : ∀ n, (l₁ ++ l₂).drop (l₁.length + n) = l₂.drop n := by
  induction l₁ with
  | nil => intro n; simp
  | cons x t ih => intro n; simpa [Nat.succ_add] using ih n

/-- Taking an append up to the length of the left part. -/
theorem take_length_append (l₁ l₂ : List Nat) : (l₁ ++ l₂).take l₁.length = l₁ := by
  induction l₁ with
  | nil => simp
  | cons x t ih => simpa using ih

/-- Taking at least the whole list is the identity. -/
theorem take_of_length_le' {l : List Nat} : ∀ {n}, l.length ≤ n → l.take n = l := by
  induction l with
  | nil => intro n _; simp
  | cons x t ih =>
      intro n h
      cases n with
      | zero => simp at h
      | succ m => simpa using ih (by simpa using h)

/-- Splicing out the first occurrence when the prefix misses it. -/
theorem removeFirst_append_cons {pre : List Nat} {c : Nat} (post : List Nat) (h : c ∉ pre) :
    removeFirst (pre ++ c :: post) c = pre ++ post := by
  induction pre with
  | nil => simp [removeFirst]
  | cons x t ih =>
      have hx : x ≠ c := fun hxc => h (by simp [hxc])
      simp [removeFirst, hx, ih (fun hc => h (List.mem_cons_of_mem _ hc))]

/-! ## Structure of an emit publish loop -/

/-- An emit loop of `m + n` iterations is the loop of the first `m`
iterations followed by the loop of the last `n`, invocations concatenated. -/
theorem emitLoop_add (env : Nat → List Effect) (aid : Nat) :
    ∀ (m n k : Nat) (b : EventBus),
      emitLoop env aid (m + n) k b =
        ((emitLoop env aid n (k + m) (emitLoop env aid m k b).1).1,
         (emitLoop env aid m k b).2 ++ (emitLoop env aid n (k + m) (emitLoop env aid m k b).1).2) := by
  intro m
  induction m with
  | zero => intro n k b; simp [emitLoop]
  | succ m ih =>
      intro n k b
      have hadd : m + 1 + n = (m + n) + 1 := by omega
      rw [hadd]
      show (match (getArrD b.arrays aid).get? k with
            | none => emitLoop env aid (m + n) (k + 1) b
            | some cb =>
                let b' := (runEffects (env cb) b).1
                let r := emitLoop env aid (m + n) (k + 1) b'
                (r.1, cb :: r.2)) = _
      cases h : (getArrD b.arrays aid).get? k with
      | none =>
          simp only [emitLoop, h]
          have := ih n (k + 1) b
          rw [this]
          have hk : k + 1 + m = k + (m + 1) := by omega
          rw [hk]
      | some cb =>
          simp only [emitLoop, h]
          have := ih n (k + 1) (runEffects (env cb) b).1
          rw [this]
          have hk : k + 1 + m = k + (m + 1) := by omega
          rw [hk]
          simp

/-- A stretch of the publish loop whose visited callbacks have no effects
leaves the bus unchanged and invokes exactly the visited window of the
array. -/
theorem emitLoop_inert (env : Nat → List Effect) (aid : Nat) :
    ∀ (rem k : Nat) (b : EventBus),
      (∀ j cb, j < rem → (getArrD b.arrays aid).get? (k + j) = some cb → env cb = []) →
      emitLoop env aid rem k b = (b, ((getArrD b.arrays aid).drop k).take rem) := by
  intro rem
  induction rem with
  | zero => intro k b _; simp [emitLoop]
  | succ rem ih =>
      intro k b hins
      cases h : (getArrD b.arrays aid).get? k with
      | none =>
          have hdrop : (getArrD b.arrays aid).drop k = [] := drop_of_get?_none h
          have hdrop1 : (getArrD b.arrays aid).drop (k + 1) = [] := by
            have hlen : (getArrD b.arrays aid).length ≤ k := List.drop_eq_nil_iff.mp hdrop
            exact List.drop_eq_nil_of_le (by omega)
          simp only [emitLoop, h]
          rw [ih (k + 1) b (fun j cb hj hg => hins (j + 1) cb (by omega) (by
            have : k + (j + 1) = k + 1 + j := by omega
            rw [this]; exact hg))]
          rw [hdrop, hdrop1]
          simp
      | some cb =>
          have hcb : env cb = [] := hins 0 cb (by omega) (by simpa using h)
          simp only [emitLoop, h, hcb, runEffects]
          rw [ih (k + 1) b (fun j cb' hj hg => hins (j + 1) cb' (by omega) (by
            have : k + (j + 1) = k + 1 + j := by omega
            rw [this]; exact hg))]
          rw [drop_of_get?_some h]
          simp

/-- Lookup of the single event entry of `mkBus`. -/
theorem mkBus_lookup (E : String) (arr : List Nat) :
    (mkBus E arr).listeners.lookup E = some 0 := by
  simp [mkBus, List.lookup]

/-- Heap read of the single array object of `mkBus`. -/
theorem mkBus_getArrD (E : String) (arr : List Nat) :
    getArrD (mkBus E arr).arrays 0 = arr := by
  simp [mkBus, getArrD, List.lookup]

/-- Effect of an `off` of callback `c` on a single-entry bus: the array is
spliced in place, and the map entry is dropped exactly when it emptied. -/
theorem mkBus_off (E : String) (pre post : List Nat) (c : Nat) (hc : c ∉ pre) :
    (mkBus E (pre ++ c :: post)).off E c =
      { listeners := if (pre ++ post).isEmpty then [] else [(E, 0)]
        arrays := [(0, pre ++ post)]
        nextArr := 1 } := by
  simp only [EventBus.off, mkBus_lookup, mkBus_getArrD, removeFirst_append_cons post hc]
  simp [mkBus, setArr, removeKey]

/-- Effect of an `on` on a single-entry bus: push onto the live array. -/
theorem mkBus_on (E : String) (arr : List Nat) (d : Nat) :
    (mkBus E arr).on E d = mkBus E (arr ++ [d]) := by
  simp only [EventBus.on, mkBus_lookup, mkBus_getArrD]
  simp [mkBus, setArr]

/-- During a publish, a callback that unsubscribes itself shifts the live
array, so the publish skips the callback that stood right after it. -/
theorem emit_selfOff_skips (env : Nat → List Effect) (E : String) (pre post : List Nat) (c : Nat)
    (hcpre : c ∉ pre) (hc : env c = [Effect.eoff E c])
    (hpre : ∀ x ∈ pre, env x = []) (hpost : ∀ x ∈ post, env x = []) :
    (EventBus.emit env (mkBus E (pre ++ c :: post)) E).2 = pre ++ c :: post.drop 1 := by
  set arr := pre ++ c :: post with harr
  set b0 := mkBus E arr with hb0
  have hlen : arr.length = pre.length + (1 + post.length) := by simp [harr]; omega
  have hemit : EventBus.emit env b0 E = emitLoop env 0 arr.length 0 b0 := by
    simp only [EventBus.emit, hb0, mkBus_lookup, mkBus_getArrD]
  have hseg1 : emitLoop env 0 pre.length 0 b0 = (b0, pre) := by
    have h1 := emitLoop_inert env 0 pre.length 0 b0 (by
      intro j cb hj hg
      apply hpre
      have : arr.get? (0 + j) = some cb := by rw [← mkBus_getArrD E arr]; exact hg
      rw [Nat.zero_add] at this
      rw [harr] at this
      rw [get?_append_lt pre (c :: post) j hj] at this
      exact mem_of_get? this)
    rw [h1, mkBus_getArrD]
    simp [harr, take_length_append]
  set b1 : EventBus :=
    { listeners := if (pre ++ post).isEmpty then [] else [(E, 0)]
      arrays := [(0, pre ++ post)]
      nextArr := 1 } with hb1
  have hget1 : getArrD b1.arrays 0 = pre ++ post := by simp [hb1, getArrD, List.lookup]
  have hstep : emitLoop env 0 1 pre.length b0 = (b1, [c]) := by
    have hc' : (getArrD b0.arrays 0).get? pre.length = some c := by
      rw [hb0, mkBus_getArrD, harr]
      exact get?_append_length pre c post
    simp only [emitLoop, hc', hc, runEffects]
    rw [hb0, harr, mkBus_off E pre post c hcpre, ← hb1]
  have hseg3 : emitLoop env 0 post.length (pre.length + 1) b1 = (b1, post.drop 1) := by
    have h3 := emitLoop_inert env 0 post.length (pre.length + 1) b1 (by
      intro j cb hj hg
      apply hpost
      rw [hget1] at hg
      have hsh : pre.length + 1 + j = pre.length + (1 + j) := by omega
      rw [hsh, get?_append_add pre post (1 + j)] at hg
      exact mem_of_get? hg)
    rw [h3, hget1]
    have hdrop : (pre ++ post).drop (pre.length + 1) = post.drop 1 :=
      drop_append_add pre post 1
    rw [hdrop]
    rw [take_of_length_le' (by simp)]
  rw [hemit, hlen, emitLoop_add env 0 pre.length (1 + post.length) 0 b0, hseg1]
  simp only [Nat.zero_add]
  rw [emitLoop_add env 0 1 post.length pre.length b0, hstep]
  simp only []
  rw [hseg3]
  simp

/-- During a publish, a callback that subscribes a new callback appends it
to the live array; the new callback is beyond the captured iteration count,
so the publish does not invoke it, while it does end up registered. -/
theorem emit_onDuring_appends (env : Nat → List Effect) (E : String) (pre post : List Nat)
    (c d : Nat) (hc : env c = [Effect.eon E d])
    (hpre : ∀ x ∈ pre, env x = []) (hpost : ∀ x ∈ post, env x = []) :
    (EventBus.emit env (mkBus E (pre ++ c :: post)) E).2 = pre ++ c :: post ∧
    getArrD (EventBus.emit env (mkBus E (pre ++ c :: post)) E).1.arrays 0 =
      (pre ++ c :: post) ++ [d] := by
  set arr := pre ++ c :: post with harr
  set b0 := mkBus E arr with hb0
  have hlen : arr.length = pre.length + (1 + post.length) := by simp [harr]; omega
  have hemit : EventBus.emit env b0 E = emitLoop env 0 arr.length 0 b0 := by
    simp only [EventBus.emit, hb0, mkBus_lookup, mkBus_getArrD]
  have hseg1 : emitLoop env 0 pre.length 0 b0 = (b0, pre) := by
    have h1 := emitLoop_inert env 0 pre.length 0 b0 (by
      intro j cb hj hg
      apply hpre
      have : arr.get? (0 + j) = some cb := by rw [← mkBus_getArrD E arr]; exact hg
      rw [Nat.zero_add] at this
      rw [harr] at this
      rw [get?_append_lt pre (c :: post) j hj] at this
      exact mem_of_get? this)
    rw [h1, mkBus_getArrD]
    simp [harr, take_length_append]
  set b1 : EventBus := mkBus E (arr ++ [d]) with hb1
  have hget1 : getArrD b1.arrays 0 = arr ++ [d] := by rw [hb1, mkBus_getArrD]
  have hstep : emitLoop env 0 1 pre.length b0 = (b1, [c]) := by
    have hc' : (getArrD b0.arrays 0).get? pre.length = some c := by
      rw [hb0, mkBus_getArrD, harr]
      exact get?_append_length pre c post
    simp only [emitLoop, hc', hc, runEffects]
    rw [hb0, mkBus_on E arr d, ← hb1]
  have harr' : arr ++ [d] = pre ++ c :: (post ++ [d]) := by simp [harr]
  have hseg3 : emitLoop env 0 post.length (pre.length + 1) b1 = (b1, post) := by
    have h3 := emitLoop_inert env 0 post.length (pre.length + 1) b1 (by
      intro j cb hj hg
      apply hpost
      rw [hget1, harr'] at hg
      have hsh : pre.length + 1 + j = pre.length + (1 + j) := by omega
      rw [hsh, get?_append_add pre (c :: (post ++ [d])) (1 + j)] at hg
      have h1j : 1 + j = j + 1 := by omega
      rw [h1j] at hg
      have : (post ++ [d]).get? j = some cb := by simpa [List.get?] using hg
      rw [get?_append_lt post [d] j hj] at this
      exact mem_of_get? this)
    rw [h3, hget1, harr']
    have hdrop : (pre ++ c :: (post ++ [d])).drop (pre.length + 1) = post ++ [d] := by
      have := drop_append_add pre (c :: (post ++ [d])) 1
      simpa using this
    rw [hdrop, take_length_append]
  constructor
  · rw [hemit, hlen, emitLoop_add env 0 pre.length (1 + post.length) 0 b0, hseg1]
    simp only [Nat.zero_add]
    rw [emitLoop_add env 0 1 post.length pre.length b0, hstep]
    simp only []
    rw [hseg3]
    simp
  · rw [hemit, hlen, emitLoop_add env 0 pre.length (1 + post.length) 0 b0, hseg1]
    simp only [Nat.zero_add]
    rw [emitLoop_add env 0 1 post.length pre.length b0, hstep]
    simp only []
    rw [hseg3]
    simpa using hget1

/-- Registering on a fresh bus creates the single-entry bus. -/
theorem emptyBus_on (E : String) (w : Nat) : emptyBus.on E w = mkBus E [w] := by
  simp [EventBus.on, emptyBus, mkBus, List.lookup]

/-- A concrete environment where callback 0 unsubscribes itself from
"evt" and every other callback is inert. -/
def envSelfOff : Nat → List Effect :=
  fun i => if i = 0 then [Effect.eoff "evt" 0] else []

/-- A concrete environment where callback 7 subscribes callback 9 to
"sub" and every other callback is inert. -/
def envSubOn : Nat → List Effect :=
  fun i => if i = 7 then [Effect.eon "sub" 9] else []

/-- C1, counterexample.  With callbacks 0 and 1 registered for "evt" at
publish start and callback 0 unsubscribing itself during the publish,
`emit` invokes only callback 0: callback 1, although registered at publish
start, is skipped, because `emit` iterates the live spliced array rather
than a snapshot.  This refutes the claim that a callback unsubscribing
during a publish does not change which of the callbacks registered at
publish start get invoked. -/
theorem c1_counterexample :
    getArrD ((emptyBus.on "evt" 0).on "evt" 1).arrays 0 = [0, 1] ∧
    (EventBus.emit envSelfOff ((emptyBus.on "evt" 0).on "evt" 1) "evt").2 = [0] ∧
    ([0] : List Nat) ≠ [0, 1] :=
  ⟨by decide, by decide, by decide⟩

/-- C1 (amended): `EventBus.emit` iterates the live callback array with the
iteration count captured at publish start, not a snapshot.  Consequently
(a) a callback that unsubscribes itself during the publish shifts the live
array and causes the callback registered immediately after it to be
skipped by that publish, and (b) a callback that subscribes a new callback
during the publish appends it to the live array beyond the captured count,
so the new callback is registered but not invoked by the in-progress
publish. -/
theorem c1_emit_iterates_live_not_snapshot :
    (∀ (env : Nat → List Effect) (E : String) (pre post : List Nat) (c : Nat),
        c ∉ pre → env c = [Effect.eoff E c] →
        (∀ x ∈ pre, env x = []) → (∀ x ∈ post, env x = []) →
        (EventBus.emit env (mkBus E (pre ++ c :: post)) E).2 = pre ++ c :: post.drop 1) ∧
    (∀ (env : Nat → List Effect) (E : String) (pre post : List Nat) (c d : Nat),
        env c = [Effect.eon E d] →
        (∀ x ∈ pre, env x = []) → (∀ x ∈ post, env x = []) →
        (EventBus.emit env (mkBus E (pre ++ c :: post)) E).2 = pre ++ c :: post ∧
        getArrD (EventBus.emit env (mkBus E (pre ++ c :: post)) E).1.arrays 0 =
          (pre ++ c :: post) ++ [d]) :=
  ⟨emit_selfOff_skips, emit_onDuring_appends⟩

/-- C1, witness: the amended theorem evaluated at concrete inputs.  With
callbacks 5, 0 (self-unsubscribing), 1, 2 registered for "evt", the
publish invokes 5, 0 and 2 and skips 1; with callback 7 registered for
"sub" subscribing callback 9 during the publish, only 7 is invoked and 9
ends up registered. -/
theorem c1_witness :
    (EventBus.emit envSelfOff (mkBus "evt" ([5] ++ 0 :: [1, 2])) "evt").2 =
        [5] ++ 0 :: [1, 2].drop 1 ∧
    (EventBus.emit envSubOn (mkBus "sub" ([] ++ 7 :: [])) "sub").2 = [] ++ 7 :: [] :=
  ⟨c1_emit_iterates_live_not_snapshot.1 envSelfOff "evt" [5] [1, 2] 0
      (by decide) (by decide) (by decide) (by decide),
   (c1_emit_iterates_live_not_snapshot.2 envSubOn "sub" [] [] 7 9
      (by decide) (by decide) (by decide)).1⟩

/-- A concrete environment for the `once` scenarios: callback 0 is the
inner callback and raises; callback 1 is its `once` wrapper for event "E"
(call through, then unsubscribe itself); callback 2 is a wrapper for a
non-raising inner callback with no bus effects. -/
def envOnce : Nat → List Effect :=
  fun i =>
    if i = 0 then [Effect.ethrow]
    else if i = 1 then [Effect.ethrow, Effect.eoff "E" 1]
    else if i = 2 then [Effect.eoff "E" 2]
    else []

/-- C9: for a `once` registration whose inner callback raises, the raise is
caught by `emit` (the publish returns normally), but it aborts the wrapper
before the self-unsubscribe, so the wrapper stays registered and is
invoked again by the next publish — the bus state after the publish equals
the state before it.  By contrast, a `once` wrapper whose inner callback
does not raise unsubscribes itself during the first publish, and a second
publish invokes nothing. -/
theorem c9_once_raising_stays_registered :
    (∀ (env : Nat → List Effect) (E : String) (c w : Nat),
        env c = [Effect.ethrow] →
        env w = env c ++ [Effect.eoff E w] →
        (EventBus.emit env (emptyBus.once E w) E).1 = emptyBus.once E w ∧
        (EventBus.emit env (emptyBus.once E w) E).2 = [w] ∧
        ((EventBus.emit env (emptyBus.once E w) E).1.emit env E).2 = [w]) ∧
    (∀ (env : Nat → List Effect) (E : String) (w : Nat),
        env w = [Effect.eoff E w] →
        (EventBus.emit env (emptyBus.once E w) E).2 = [w] ∧
        ((EventBus.emit env (emptyBus.once E w) E).1.emit env E).2 = []) := by
  constructor
  · intro env E c w hc hw
    rw [hc] at hw
    have hbus : emptyBus.once E w = mkBus E [w] := emptyBus_on E w
    have hemit : EventBus.emit env (mkBus E [w]) E = (mkBus E [w], [w]) := by
      simp only [EventBus.emit, mkBus_lookup, mkBus_getArrD, List.length_cons,
        List.length_nil, emitLoop, List.get?, hw, runEffects]
    refine ⟨by rw [hbus, hemit], by rw [hbus, hemit], ?_⟩
    rw [hbus, hemit, hemit]
  · intro env E w hw
    have hbus : emptyBus.once E w = mkBus E [w] := emptyBus_on E w
    have hoff : (mkBus E [w]).off E w = ⟨[], [(0, [])], 1⟩ := by
      have := mkBus_off E [] [] w (by simp)
      simpa using this
    have hemit : EventBus.emit env (mkBus E [w]) E = (⟨[], [(0, [])], 1⟩, [w]) := by
      simp only [EventBus.emit, mkBus_lookup, mkBus_getArrD, List.length_cons,
        List.length_nil, emitLoop, List.get?, hw, runEffects, hoff]
    refine ⟨by rw [hbus, hemit], ?_⟩
    rw [hbus, hemit]
    simp [EventBus.emit, List.lookup]

/-- C9, witness: the theorem evaluated at the concrete environment
`envOnce` with inner callback 0 (raising) and wrappers 1 and 2. -/
theorem c9_witness :
    ((EventBus.emit envOnce (emptyBus.once "E" 1) "E").2 = [1] ∧
      ((EventBus.emit envOnce (emptyBus.once "E" 1) "E").1.emit envOnce "E").2 = [1]) ∧
    ((EventBus.emit envOnce (emptyBus.once "E" 2) "E").2 = [2] ∧
      ((EventBus.emit envOnce (emptyBus.once "E" 2) "E").1.emit envOnce "E").2 = []) :=
  ⟨⟨(c9_once_raising_stays_registered.1 envOnce "E" 0 1 (by decide) (by decide)).2.1,
    (c9_once_raising_stays_registered.1 envOnce "E" 0 1 (by decide) (by decide)).2.2⟩,
   c9_once_raising_stays_registered.2 envOnce "E" 2 (by decide)⟩

/-! ## Animator

The GSAP wrapper class `Animator`.  GSAP timeline objects are modelled as
heap cells indexed by allocation order, so a timeline whose reference the
Animator drops still exists (and keeps its playing state) until someone
kills it.  A timeline built by gsap.timeline with paused true starts
paused, at time 0, at the default timeScale 1; the lesson configs passed
to createTimeline carry only repeat and repeatDelay, which do not affect
these fields. -/

/-- One GSAP timeline object. -/
structure Timeline where
  killed : Bool
  playing : Bool
  timeScale : Rat
  time : Rat
deriving DecidableEq

/-- The timeline object made by gsap.timeline with paused true. -/
def freshTimeline : Timeline := ⟨false, false, 1, 0⟩

/-- The Animator state: the reference to the current timeline (if any),
the stored speed, the isPlaying flag, the heap of all timeline objects
created so far, and the allocator for timeline ids. -/
structure Animator where
  timeline : Option Nat
  speed : Rat
  isPlaying : Bool
  tls : List (Nat × Timeline)
  nextTl : Nat
deriving DecidableEq

/-- The state produced by the constructor call new Animator(). -/
def initAnimator : Animator := ⟨none, 1, false, [], 0⟩

/-- Heap read of one timeline object. -/
def getTl (h : List (Nat × Timeline)) (tid : Nat) : Option Timeline :=
  h.lookup tid

/-- In-place update of one timeline object in the heap. -/
def setTl : List (Nat × Timeline) → Nat → (Timeline → Timeline) → List (Nat × Timeline)
  | [], _, _ => []
  | (k, t) :: h, tid, f => if k = tid then (k, f t) :: h else (k, t) :: setTl h tid f

/-- Embeds Animator.createTimeline(config): allocate a fresh paused
timeline and overwrite the reference.  Note the existing timeline, if any,
is neither stopped nor killed. -/
def Animator.createTimeline (a : Animator) : Animator :=
  { a with
    timeline := some a.nextTl
    tls := (a.nextTl, freshTimeline) :: a.tls
    nextTl := a.nextTl + 1 }

/-- Embeds Animator.play(): no-op without a timeline, else start the
current timeline and set the flag. -/
def Animator.play (a : Animator) : Animator :=
  match a.timeline with
  | none => a
  | some tid =>
      { a with tls := setTl a.tls tid (fun t => { t with playing := true }), isPlaying := true }

/-- Embeds Animator.pause(). -/
def Animator.pause (a : Animator) : Animator :=
  match a.timeline with
  | none => a
  | some tid =>
      { a with tls := setTl a.tls tid (fun t => { t with playing := false }), isPlaying := false }

/-- Embeds Animator.reset(): seek to time zero and pause. -/
def Animator.reset (a : Animator) : Animator :=
  match a.timeline with
  | none => a
  | some tid =>
      { a with
        tls := setTl a.tls tid (fun t => { t with time := 0, playing := false })
        isPlaying := false }

/-- Embeds Animator.setSpeed(speed): store the speed and, when a timeline
exists, apply it to that timeline's timeScale immediately.  Note the
stored speed is never applied to later timelines. -/
def Animator.setSpeed (a : Animator) (s : Rat) : Animator :=
  match a.timeline with
  | none => { a with speed := s }
  | some tid =>
      { a with speed := s, tls := setTl a.tls tid (fun t => { t with timeScale := s }) }

/-- Embeds Animator.destroy(): kill the current timeline, drop the
reference, clear the flag. -/
def Animator.destroy (a : Animator) : Animator :=
  match a.timeline with
  | none => { a with isPlaying := false }
  | some tid =>
      { a with
        tls := setTl a.tls tid (fun t => { t with killed := true, playing := false })
        timeline := none
        isPlaying := false }

/-- Lookup equation for a matching head key. -/
theorem lookup_cons_self {β : Type} (a : Nat) (b : β) (l : List (Nat × β)) :
    List.lookup a ((a, b) :: l) = some b := by
  simp [List.lookup]

/-- Lookup equation for a non-matching head key. -/
theorem lookup_cons_ne' {β : Type} {a k : Nat} (b : β) (l : List (Nat × β)) (h : a ≠ k) :
    List.lookup a ((k, b) :: l) = List.lookup a l := by
  have hb : (a == k) = false := beq_eq_false_iff_ne.mpr h
  simp [List.lookup, hb]

/-- Reading a heap cell after an in-place update of that cell. -/
theorem getTl_setTl (h : List (Nat × Timeline)) (tid : Nat) (f : Timeline → Timeline) :
    getTl (setTl h tid f) tid = (getTl h tid).map f := by
  induction h with
  | nil => rfl
  | cons p rest ih =>
      obtain ⟨k, t⟩ := p
      by_cases hk : k = tid
      · subst hk
        rw [setTl, if_pos rfl, getTl, getTl]
        rw [lookup_cons_self, lookup_cons_self]
        rfl
      · rw [setTl, if_neg hk, getTl, getTl]
        rw [lookup_cons_ne' _ _ (fun h => hk h.symm), lookup_cons_ne' _ _ (fun h => hk h.symm)]
        exact ih

/-- Reading an untouched heap cell after an update elsewhere. -/
theorem getTl_setTl_ne (h : List (Nat × Timeline)) (tid tid' : Nat) (f : Timeline → Timeline)
    (hne : tid' ≠ tid) : getTl (setTl h tid f) tid' = getTl h tid' := by
  induction h with
  | nil => rfl
  | cons p rest ih =>
      obtain ⟨k, t⟩ := p
      by_cases hk : k = tid
      · subst hk
        rw [setTl, if_pos rfl, getTl, getTl, lookup_cons_ne' _ _ hne, lookup_cons_ne' _ _ hne]
      · rw [setTl, if_neg hk]
        by_cases hk' : tid' = k
        · subst hk'
          rw [getTl, getTl, lookup_cons_self, lookup_cons_self]
        · rw [getTl, getTl, lookup_cons_ne' _ _ hk', lookup_cons_ne' _ _ hk']
          exact ih

/-- Reading a heap cell after an allocation under a different id. -/
theorem getTl_cons_ne (h : List (Nat × Timeline)) (nid tid : Nat) (t : Timeline)
    (hne : tid ≠ nid) : getTl ((nid, t) :: h) tid = getTl h tid := by
  rw [getTl, getTl, lookup_cons_ne' _ _ hne]

/-- C2, counterexample.  Create a timeline, start it playing, then call
createTimeline again: the replaced timeline 0 is still alive (not killed)
and still playing — an orphaned running timeline — refuting the claim that
createTimeline first stops and releases the existing timeline. -/
theorem c2_counterexample :
    getTl ((initAnimator.createTimeline.play).createTimeline).tls 0 =
        some { killed := false, playing := true, timeScale := 1, time := 0 } ∧
    ((initAnimator.createTimeline.play).createTimeline).timeline = some 1 :=
  ⟨by decide, by decide⟩

/-- C2 (amended): createTimeline allocates a fresh paused timeline and
overwrites the Animator's reference without touching the existing
timeline, whose object keeps its exact state (so a replaced timeline that
was playing keeps playing, orphaned); a timeline is stopped and released
only by destroy, which kills the currently referenced timeline. -/
theorem c2_createTimeline_orphans_previous :
    ∀ (a : Animator) (tid : Nat), a.timeline = some tid → tid ≠ a.nextTl →
      getTl a.createTimeline.tls tid = getTl a.tls tid ∧
      a.createTimeline.timeline = some a.nextTl ∧
      getTl a.createTimeline.tls a.nextTl = some freshTimeline ∧
      (∀ t, getTl a.tls tid = some t →
          getTl a.destroy.tls tid = some { t with killed := true, playing := false }) := by
  intro a tid htl hne
  refine ⟨?_, rfl, ?_, ?_⟩
  · exact getTl_cons_ne a.tls a.nextTl tid freshTimeline hne
  · exact lookup_cons_self a.nextTl freshTimeline a.tls
  · intro t ht
    simp only [Animator.destroy, htl]
    rw [getTl_setTl, ht]
    rfl

/-- C2, witness: the amended theorem evaluated on an Animator holding
timeline 0 in its fresh state. -/
theorem c2_witness :
    getTl initAnimator.createTimeline.createTimeline.tls 0 =
        getTl initAnimator.createTimeline.tls 0 ∧
    initAnimator.createTimeline.createTimeline.timeline =
        some initAnimator.createTimeline.nextTl ∧
    getTl initAnimator.createTimeline.destroy.tls 0 =
        some { freshTimeline with killed := true, playing := false } :=
  ⟨(c2_createTimeline_orphans_previous initAnimator.createTimeline 0 (by decide) (by decide)).1,
   (c2_createTimeline_orphans_previous initAnimator.createTimeline 0 (by decide) (by decide)).2.1,
   (c2_createTimeline_orphans_previous initAnimator.createTimeline 0 (by decide)
      (by decide)).2.2.2 freshTimeline (by decide)⟩

/-- C5, counterexample.  Call setSpeed 2 on an Animator with a current
timeline, then createTimeline: the stored speed is 2, but the newly
created (now current) timeline has timeScale 1, not 2 — refuting the
claim that a timeline created after setSpeed inherits the stored speed. -/
theorem c5_counterexample :
    ((initAnimator.createTimeline.setSpeed 2).createTimeline).speed = 2 ∧
    ((initAnimator.createTimeline.setSpeed 2).createTimeline).timeline = some 1 ∧
    getTl ((initAnimator.createTimeline.setSpeed 2).createTimeline).tls 1 =
        some freshTimeline ∧
    freshTimeline.timeScale = 1 ∧
    (1 : Rat) ≠ 2 :=
  ⟨by decide, by decide, by decide, by decide, by decide⟩

/-- C5 (amended): setSpeed stores the multiplier and applies it
immediately to the current timeline's timeScale when one exists, but a
timeline created later by createTimeline starts at the default timeScale
1 — later timelines do not inherit the stored speed. -/
theorem c5_setSpeed_not_inherited :
    ∀ (s : Rat) (a : Animator) (tid : Nat), a.timeline = some tid →
      (a.setSpeed s).speed = s ∧
      getTl (a.setSpeed s).tls tid =
          (getTl a.tls tid).map (fun t => { t with timeScale := s }) ∧
      ((a.setSpeed s).createTimeline).timeline = some (a.setSpeed s).nextTl ∧
      getTl ((a.setSpeed s).createTimeline).tls (a.setSpeed s).nextTl = some freshTimeline ∧
      freshTimeline.timeScale = 1 := by
  intro s a tid htl
  refine ⟨?_, ?_, rfl, ?_, rfl⟩
  · simp only [Animator.setSpeed, htl]
  · simp only [Animator.setSpeed, htl]
    exact getTl_setTl a.tls tid _
  · exact lookup_cons_self _ freshTimeline _

/-- C5, witness: the amended theorem evaluated at speed 2 on an Animator
holding timeline 0. -/
theorem c5_witness :
    (initAnimator.createTimeline.setSpeed 2).speed = 2 ∧
    getTl (initAnimator.createTimeline.setSpeed 2).tls 0 =
        (getTl initAnimator.createTimeline.tls 0).map
          (fun t => { t with timeScale := 2 }) :=
  ⟨(c5_setSpeed_not_inherited 2 initAnimator.createTimeline 0 (by decide)).1,
   (c5_setSpeed_not_inherited 2 initAnimator.createTimeline 0 (by decide)).2.1⟩

/-! ## JavaScript values and the Scene lifecycle base class -/

/-- A JavaScript value as used in event payloads and info records: a
string, a number, or an object kept as an insertion-ordered field list. -/
inductive JsVal where
  | str : String → JsVal
  | num : Int → JsVal
  | obj : List (String × JsVal) → JsVal

/-- An event published on the bus: its name and its payload (`none` is the
missing second argument of emit, i.e. undefined). -/
def EmittedEvent : Type := String × Option JsVal

/-- The Scene base-class state: the idempotency flag, the element registry
(element objects abbreviated to numeric ids), the owned Animator, and the
config title and description. -/
structure Scene where
  isInitialized : Bool
  elements : List (String × Nat)
  animator : Animator
  title : String
  description : String

/-- Embeds Scene.clear(): empty the render root and the registry. -/
def Scene.clear (s : Scene) : Scene := { s with elements := [] }

/-- Embeds Scene.init().  `setup` is the subclass hook: it transforms the
scene state and either returns normally (`none`) or raises (`some` error
code), having already applied whatever mutations it made before raising.
init returns the scene state, the events published, and the propagated
error if any: an already-initialized scene returns immediately; otherwise
clear, run setup, and only on normal return mark initialized and publish
the scene:ready event carrying the config title and description. -/
def Scene.init (setup : Scene → Scene × Option Nat) (s : Scene) :
    Scene × List EmittedEvent × Option Nat :=
  if s.isInitialized then (s, [], none)
  else
    match setup s.clear with
    | (s', some e) => (s', [], some e)
    | (s', none) =>
        ({ s' with isInitialized := true },
         [("scene:ready",
           some (JsVal.obj [("title", JsVal.str s'.title),
                            ("description", JsVal.str s'.description)]))],
         none)

/-- Embeds Scene.play(): delegate to the owned Animator, then publish
the event named scene:play with no payload. -/
def Scene.play (s : Scene) : Scene × List EmittedEvent :=
  ({ s with animator := s.animator.play }, [("scene:play", none)])

/-- Embeds Scene.pause(): delegate to the owned Animator, then publish
the event named scene:pause with no payload. -/
def Scene.pause (s : Scene) : Scene × List EmittedEvent :=
  ({ s with animator := s.animator.pause }, [("scene:pause", none)])

/-- Embeds Scene.reset(): delegate to the owned Animator, then publish
the event named scene:reset with no payload. -/
def Scene.reset (s : Scene) : Scene × List EmittedEvent :=
  ({ s with animator := s.animator.reset }, [("scene:reset", none)])

/-- C3: when the subclass setup raises during init on a scene that is not
yet initialized, init propagates the error, publishes nothing (in
particular no scene:ready), and leaves isInitialized false. -/
theorem c3_setup_error_aborts_init :
    ∀ (setup : Scene → Scene × Option Nat) (s s' : Scene) (e : Nat),
      s.isInitialized = false →
      setup s.clear = (s', some e) →
      s'.isInitialized = s.clear.isInitialized →
      Scene.init setup s = (s', [], some e) ∧ s'.isInitialized = false := by
  intro setup s s' e hini hsetup hpres
  have hclear : s.clear.isInitialized = false := hini
  constructor
  · rw [Scene.init, if_neg (by simp [hini]), hsetup]
  · rw [hpres, hclear]

/-- A concrete scene value used as input to the lifecycle theorems. -/
def sceneDefault : Scene :=
  { isInitialized := false
    elements := []
    animator := initAnimator
    title := "Kafka Offsets & Consumer Lag"
    description := "Offsets track message positions in partitions."
    }

/-- C3, witness: the theorem evaluated at a setup hook that raises error
code 7 without touching the flag. -/
theorem c3_witness :
    Scene.init (fun sc => (sc, some 7)) sceneDefault = (sceneDefault.clear, [], some 7) ∧
    (sceneDefault.clear).isInitialized = false :=
  c3_setup_error_aborts_init (fun sc => (sc, some 7)) sceneDefault sceneDefault.clear 7
    rfl rfl rfl

/-- C7, counterexample.  On a concrete scene, play publishes the event
named scene:play and pause publishes scene:pause — not scene:playing and
scene:paused as claimed. -/
theorem c7_counterexample :
    (Scene.play sceneDefault).2.map Prod.fst = ["scene:play"] ∧
    (Scene.pause sceneDefault).2.map Prod.fst = ["scene:pause"] ∧
    "scene:play" ≠ "scene:playing" ∧
    "scene:pause" ≠ "scene:paused" :=
  ⟨rfl, rfl, by decide, by decide⟩

/-- C7 (amended): for every Scene, play publishes exactly the event named
scene:play, pause publishes scene:pause, and reset publishes scene:reset,
each with no payload (emit is called with no data argument), after
delegating to the owned Animator's corresponding transport operation. -/
theorem c7_transport_event_names :
    ∀ s : Scene,
      ((Scene.play s).2 = [("scene:play", (none : Option JsVal))] ∧
        (Scene.play s).1.animator = s.animator.play) ∧
      ((Scene.pause s).2 = [("scene:pause", (none : Option JsVal))] ∧
        (Scene.pause s).1.animator = s.animator.pause) ∧
      ((Scene.reset s).2 = [("scene:reset", (none : Option JsVal))] ∧
        (Scene.reset s).1.animator = s.animator.reset) :=
  fun _ => ⟨⟨rfl, rfl⟩, ⟨rfl, rfl⟩, ⟨rfl, rfl⟩⟩

/-! ## Entity renderers: the Consumer info record and click handler -/

/-- The Consumer renderer state (`src/js/kafka/Consumer.js`, shipped as
`src/unnamed/part_000`): id, position, and optional consumer group. -/
structure Consumer where
  id : String
  x : Int
  y : Int
  groupId : Option String

/-- Embeds Consumer.getInfo(): the info record is a JavaScript object with
the fields type, title, description and details, in that insertion order;
details is itself an insertion-ordered object of display labels to
values.  The Group detail is the JavaScript expression groupId or the
string None, so both a missing and an empty groupId display as None. -/
def Consumer.getInfo (c : Consumer) : List (String × JsVal) :=
  [("type", JsVal.str "Consumer"),
   ("title", JsVal.str "Kafka Consumer"),
   ("description", JsVal.str
     "Consumers read and process messages from Kafka topics. They can be part of consumer groups for load balancing and fault tolerance."),
   ("details", JsVal.obj
     [("ID", JsVal.str c.id),
      ("Group", JsVal.str
        (match c.groupId with
         | none => "None"
         | some g => if g = "" then "None" else g)),
      ("Role", JsVal.str "Message Consumer")])]

/-- Embeds the consumer click handler of Lesson1_Basics.setupClickHandlers
(`src/unnamed/part_003`): clicking the rendered consumer publishes the
event named entity:click whose sole payload is the getInfo record. -/
def consumerClickEvent (c : Consumer) : String × List (String × JsVal) :=
  ("entity:click", c.getInfo)

/-- The consumer instance constructed by Lesson1_Basics.setup. -/
def lesson1Consumer : Consumer := ⟨"consumer-1", 980, 260, none⟩

/-- C6, counterexample.  The click handler of the lesson's consumer
publishes the event named entity:click, not entity:selected, and the
payload's fields are type, title, description and details — there is no
kind field and no attributes field — refuting the claimed event name and
record shape. -/
theorem c6_counterexample :
    (consumerClickEvent lesson1Consumer).1 = "entity:click" ∧
    "entity:click" ≠ "entity:selected" ∧
    (consumerClickEvent lesson1Consumer).2.map Prod.fst =
        ["type", "title", "description", "details"] ∧
    "kind" ∉ (consumerClickEvent lesson1Consumer).2.map Prod.fst ∧
    "attributes" ∉ (consumerClickEvent lesson1Consumer).2.map Prod.fst :=
  ⟨rfl, by decide, rfl, by decide, by decide⟩

/-- C6 (amended): for every consumer, clicking its rendered element
publishes an event named entity:click whose payload is the renderer's
getInfo record of shape type, title, description, details — where details
is an insertion-ordered mapping of human-readable label (ID, Group, Role)
to display value. -/
theorem c6_entity_click_payload_shape :
    ∀ c : Consumer,
      (consumerClickEvent c).1 = "entity:click" ∧
      (consumerClickEvent c).2.map Prod.fst = ["type", "title", "description", "details"] ∧
      (consumerClickEvent c).2.lookup "details" =
        some (JsVal.obj
          [("ID", JsVal.str c.id),
           ("Group", JsVal.str
             (match c.groupId with
              | none => "None"
              | some g => if g = "" then "None" else g)),
           ("Role", JsVal.str "Message Consumer")]) :=
  fun _ => ⟨rfl, rfl, rfl⟩

/-! ## Lesson5 offset and lag bookkeeping

The single-partition, single-consumer bookkeeping of
Lesson5_Offsets.createAndAnimateMessage: a spawn reads the latest offset
as the new message's offset, increments it, and records the message as
in flight; when a message's consume tween starts, the committed offset
becomes that message's offset plus one, and the message leaves the
in-flight list.  Because every message animates over the same durations
and spawn times increase, completions happen in spawn order, so the
consume step always applies to the oldest in-flight message. -/

/-- The offset-tracking state: latestOffsets zero-indexed entry, the
consumerOffsets entry, and the offsets of the in-flight messages in spawn
order. -/
structure OffsetSt where
  latest : Nat
  committed : Nat
  inflight : List Nat
deriving DecidableEq

/-- The state set up by the Lesson5_Offsets constructor. -/
def initOffsets : OffsetSt := ⟨0, 0, []⟩

/-- The two observable bookkeeping steps of a message's life. -/
inductive OffsetOp where
  | spawn
  | consume
deriving DecidableEq

/-- One bookkeeping step: spawn assigns the latest offset to the new
message, increments the latest offset and enqueues the message; consume
commits the oldest in-flight message's offset plus one and dequeues it (a
consume with nothing in flight cannot occur in a run and is a no-op). -/
def offsetExec (s : OffsetSt) : OffsetOp → OffsetSt
  | OffsetOp.spawn =>
      { s with latest := s.latest + 1, inflight := s.inflight ++ [s.latest] }
  | OffsetOp.consume =>
      match s.inflight with
      | [] => s
      | o :: rest => { s with committed := o + 1, inflight := rest }

/-- Run a spawn/consume sequence from the initial state. -/
def runOffsetOps (ops : List OffsetOp) : OffsetSt :=
  ops.foldl offsetExec initOffsets

/-- Consumer lag: latest offset minus committed offset. -/
def offsetLag (s : OffsetSt) : Nat := s.latest - s.committed

/-- The list of consecutive naturals c, c+1, ..., c+n-1. -/
def seqFrom : Nat → Nat → List Nat
  | _, 0 => []
  | c, n + 1 => c :: seqFrom (c + 1) n

/-- Appending the next natural extends a consecutive run. -/
theorem seqFrom_concat : ∀ (n c : Nat), seqFrom c (n + 1) = seqFrom c n ++ [c + n] := by
  intro n
  induction n with
  | zero => intro c; rfl
  | succ m ih =>
      intro c
      show c :: seqFrom (c + 1) (m + 1) = (c :: seqFrom (c + 1) m) ++ [c + (m + 1)]
      rw [ih (c + 1)]
      simp
      omega

/-- The reachable-state invariant of the offset bookkeeping: the committed
offset never exceeds the latest offset, and the in-flight messages are
exactly the offsets from committed to latest minus one, in order. -/
def OffsetInv (s : OffsetSt) : Prop :=
  s.committed ≤ s.latest ∧ s.inflight = seqFrom s.committed (s.latest - s.committed)

/-- Each bookkeeping step preserves the invariant. -/
theorem offsetExec_inv {s : OffsetSt} (h : OffsetInv s) (op : OffsetOp) :
    OffsetInv (offsetExec s op) := by
  obtain ⟨hle, hin⟩ := h
  cases op with
  | spawn =>
      refine ⟨by simp [offsetExec]; omega, ?_⟩
      show s.inflight ++ [s.latest] = seqFrom s.committed (s.latest + 1 - s.committed)
      have h1 : s.latest + 1 - s.committed = (s.latest - s.committed) + 1 := by omega
      have h2 : s.committed + (s.latest - s.committed) = s.latest := by omega
      rw [h1, seqFrom_concat, h2, hin]
  | consume =>
      cases hfl : s.inflight with
      | nil => simpa [offsetExec, hfl] using ⟨hle, hin⟩
      | cons o rest =>
          rw [hfl] at hin
          simp only [offsetExec, hfl]
          cases hn : s.latest - s.committed with
          | zero => rw [hn] at hin; simp [seqFrom] at hin
          | succ m =>
              rw [hn] at hin
              rw [show seqFrom s.committed (m + 1) =
                    s.committed :: seqFrom (s.committed + 1) m from rfl] at hin
              injection hin with h1 h2
              constructor
              · show o + 1 ≤ s.latest
                omega
              · show rest = seqFrom (o + 1) (s.latest - (o + 1))
                rw [h2, h1]
                have hm : s.latest - (s.committed + 1) = m := by omega
                rw [hm]

/-- The invariant holds along any run from any invariant state. -/
theorem foldl_offset_inv : ∀ (ops : List OffsetOp) (s : OffsetSt),
    OffsetInv s → OffsetInv (ops.foldl offsetExec s) := by
  intro ops
  induction ops with
  | nil => intro s h; exact h
  | cons op rest ih => intro s h; exact ih (offsetExec s op) (offsetExec_inv h op)

/-- Every state reachable by a spawn/consume sequence satisfies the
invariant. -/
theorem runOffsetOps_inv (ops : List OffsetOp) : OffsetInv (runOffsetOps ops) :=
  foldl_offset_inv ops initOffsets ⟨Nat.le_refl 0, rfl⟩

/-- C4: at every point of every spawn/consume sequence the committed
offset is at most the latest offset (lag never negative); a spawn
increments the latest offset and the lag by exactly one; and the consume
step of the oldest in-flight message sets the committed offset to that
message's offset plus one and decrements the lag by exactly one. -/
theorem c4_offset_lag_invariant :
    ∀ ops : List OffsetOp,
      (runOffsetOps ops).committed ≤ (runOffsetOps ops).latest ∧
      (offsetExec (runOffsetOps ops) OffsetOp.spawn).latest = (runOffsetOps ops).latest + 1 ∧
      offsetLag (offsetExec (runOffsetOps ops) OffsetOp.spawn) =
        offsetLag (runOffsetOps ops) + 1 ∧
      (∀ o rest, (runOffsetOps ops).inflight = o :: rest →
          (offsetExec (runOffsetOps ops) OffsetOp.consume).committed = o + 1 ∧
          offsetLag (offsetExec (runOffsetOps ops) OffsetOp.consume) + 1 =
            offsetLag (runOffsetOps ops)) := by
  intro ops
  obtain ⟨hle, hin⟩ := runOffsetOps_inv ops
  refine ⟨hle, rfl, ?_, ?_⟩
  · show (runOffsetOps ops).latest + 1 - (runOffsetOps ops).committed =
      (runOffsetOps ops).latest - (runOffsetOps ops).committed + 1
    omega
  · intro o rest hfl
    rw [hfl] at hin
    cases hn : (runOffsetOps ops).latest - (runOffsetOps ops).committed with
    | zero => rw [hn] at hin; simp [seqFrom] at hin
    | succ m =>
        rw [hn] at hin
        rw [show seqFrom (runOffsetOps ops).committed (m + 1) =
              (runOffsetOps ops).committed ::
                seqFrom ((runOffsetOps ops).committed + 1) m from rfl] at hin
        injection hin with h1 h2
        simp only [offsetExec, hfl]
        refine ⟨trivial, ?_⟩
        show (runOffsetOps ops).latest - (o + 1) + 1 =
            (runOffsetOps ops).latest - (runOffsetOps ops).committed
        omega

/-- C4, witness: after a single spawn, message 0 is in flight; its consume
step commits offset 1 and brings the lag from one back down by one. -/
theorem c4_witness :
    (runOffsetOps [OffsetOp.spawn]).inflight = 0 :: [] ∧
    (offsetExec (runOffsetOps [OffsetOp.spawn]) OffsetOp.consume).committed = 0 + 1 ∧
    offsetLag (offsetExec (runOffsetOps [OffsetOp.spawn]) OffsetOp.consume) + 1 =
      offsetLag (runOffsetOps [OffsetOp.spawn]) :=
  ⟨by decide,
   ((c4_offset_lag_invariant [OffsetOp.spawn]).2.2.2 0 [] (by decide)).1,
   ((c4_offset_lag_invariant [OffsetOp.spawn]).2.2.2 0 [] (by decide)).2⟩

/-! ## Lesson4_PartitionerStrategies sticky partitioner

Constants from the source: stickyBatchSize is 4 and partitionCount is 3.
Each spawn routes to the current sticky partition, increments the batch
counter, and once the counter reaches the batch size resets it and
advances the partition index modulo the partition count. -/

/-- Sticky partitioner state: stickyPartitionIndex and stickyBatchCount. -/
structure StickySt where
  idx : Nat
  cnt : Nat
deriving DecidableEq

/-- The state set by the constructor (and by reset). -/
def initSticky : StickySt := ⟨0, 0⟩

/-- Embeds the sticky routing step of createAndAnimateMessage: the spawned
message goes to the current partition; the batch counter is incremented
and, when it reaches the batch size 4, cleared while the partition index
advances modulo 3. -/
def stickySpawn (s : StickySt) : Nat × StickySt :=
  let partitionIndex := s.idx
  let cnt' := s.cnt + 1
  if 4 ≤ cnt' then (partitionIndex, ⟨(s.idx + 1) % 3, 0⟩)
  else (partitionIndex, ⟨s.idx, cnt'⟩)

/-- The sticky state after n spawns from the initial state. -/
def stickyStateN : Nat → StickySt
  | 0 => initSticky
  | n + 1 => (stickySpawn (stickyStateN n)).2

/-- The partition assigned to the n-th spawn (0-based). -/
def stickyPartitionN (n : Nat) : Nat := (stickySpawn (stickyStateN n)).1

/-- Closed form of the sticky state after n spawns. -/
theorem stickyStateN_eq : ∀ n, stickyStateN n = ⟨(n / 4) % 3, n % 4⟩ := by
  intro n
  induction n with
  | zero => rfl
  | succ m ih =>
      show (stickySpawn (stickyStateN m)).2 = _
      rw [ih]
      by_cases h : m % 4 = 3
      · have hc : 4 ≤ m % 4 + 1 := by omega
        simp only [stickySpawn, if_pos hc]
        have h1 : (m + 1) / 4 = m / 4 + 1 := by omega
        have h2 : (m + 1) % 4 = 0 := by omega
        have h3 : (m / 4 % 3 + 1) % 3 = (m / 4 + 1) % 3 := by omega
        rw [StickySt.mk.injEq]
        exact ⟨by rw [h3, h1], by rw [h2]⟩
      · have hc : ¬ 4 ≤ m % 4 + 1 := by omega
        simp only [stickySpawn, if_neg hc]
        have h1 : (m + 1) / 4 = m / 4 := by omega
        have h2 : (m + 1) % 4 = m % 4 + 1 := by omega
        rw [StickySt.mk.injEq]
        exact ⟨by rw [h1], by rw [h2]⟩

/-- C8: with batch size 4 and partition count 3, the n-th spawned token is
routed to partition (n / 4) % 3; hence all four tokens of the batch
starting at any batch boundary 4*q share the one partition q % 3, and the
partition index advances by one modulo 3 exactly once per four spawns. -/
theorem c8_sticky_batches :
    (∀ n, stickyPartitionN n = (n / 4) % 3) ∧
    (∀ q r, r < 4 → stickyPartitionN (4 * q + r) = q % 3) ∧
    (∀ q, stickyPartitionN (4 * (q + 1)) = (stickyPartitionN (4 * q) + 1) % 3) := by
  have hform : ∀ n, stickyPartitionN n = (n / 4) % 3 := by
    intro n
    show (stickySpawn (stickyStateN n)).1 = (n / 4) % 3
    rw [stickyStateN_eq n]
    simp only [stickySpawn]
    split <;> rfl
  refine ⟨hform, ?_, ?_⟩
  · intro q r hr
    rw [hform]
    have : (4 * q + r) / 4 = q := by omega
    rw [this]
  · intro q
    rw [hform, hform]
    have h1 : 4 * (q + 1) / 4 = q + 1 := by omega
    have h2 : 4 * q / 4 = q := by omega
    rw [h1, h2]
    omega

/-- C8, witness: spawns 4, 5, 6 and 7 (the second batch) all go to
partition 1, and the batch after the first advances the partition by one
modulo 3. -/
theorem c8_witness :
    stickyPartitionN 6 = 1 % 3 ∧
    stickyPartitionN (4 * (0 + 1)) = (stickyPartitionN (4 * 0) + 1) % 3 :=
  ⟨c8_sticky_batches.2.1 1 2 (by decide), c8_sticky_batches.2.2 0⟩

/-! ## In-flight load counters

The per-consumer load of Lesson4_ConsumerGroups (consumerLoad) and the
per-partition load of Lesson2_Partitions (brokerLoad) follow the same
discipline: every counter starts at 0, the spawn of a token adds 1 to its
target's counter, and the completion of the token's animation sets the
counter to the maximum of 0 and the counter minus one. -/

/-- A load-counter step: a token spawns towards index i, or a token
animating towards index i completes. -/
inductive LoadOp where
  | spawn : Nat → LoadOp
  | complete : Nat → LoadOp
deriving DecidableEq

/-- One load-counter update, acting on the family of counters. -/
def loadExec (f : Nat → Int) : LoadOp → Nat → Int
  | LoadOp.spawn i, j => if j = i then f i + 1 else f j
  | LoadOp.complete i, j => if j = i then max 0 (f i - 1) else f j

/-- Run a spawn/complete sequence from the all-zero counters. -/
def runLoadOps (ops : List LoadOp) : Nat → Int :=
  ops.foldl loadExec (fun _ => 0)

/-- Nonnegativity is preserved along any run. -/
theorem foldl_load_nonneg : ∀ (ops : List LoadOp) (f : Nat → Int),
    (∀ j, 0 ≤ f j) → ∀ j, 0 ≤ ops.foldl loadExec f j := by
  intro ops
  induction ops with
  | nil => intro f hf j; exact hf j
  | cons op rest ih =>
      intro f hf j
      apply ih
      intro j'
      cases op with
      | spawn i =>
          by_cases hj : j' = i
          · simp only [loadExec, if_pos hj, hj]
            have := hf i
            omega
          · simp only [loadExec, if_neg hj]
            exact hf j'
      | complete i =>
          by_cases hj : j' = i
          · simp only [loadExec, if_pos hj, hj]
            exact le_max_left 0 _
          · simp only [loadExec, if_neg hj]
            exact hf j'

/-- C10: every load counter starts at 0, a spawn adds exactly 1 to its
target counter, a completion clamps its target counter to the maximum of
0 and one less, and along every spawn/complete sequence no counter is
ever negative. -/
theorem c10_load_counters_nonneg :
    ∀ (ops : List LoadOp) (i : Nat),
      runLoadOps [] i = 0 ∧
      0 ≤ runLoadOps ops i ∧
      runLoadOps (ops ++ [LoadOp.spawn i]) i = runLoadOps ops i + 1 ∧
      runLoadOps (ops ++ [LoadOp.complete i]) i = max 0 (runLoadOps ops i - 1) := by
  intro ops i
  refine ⟨rfl, foldl_load_nonneg ops (fun _ => 0) (fun _ => le_refl 0) i, ?_, ?_⟩
  · rw [runLoadOps, List.foldl_append]
    simp [loadExec, runLoadOps]
  · rw [runLoadOps, List.foldl_append]
    simp [loadExec, runLoadOps]
